import Mathlib

/-!
Verification development for the MATLAB language server repository.
The server side (TypeScript) and the interpreter side (MATLAB helpers)
are shallowly embedded: pure functions become Lean functions, stateful
code threads explicit state, remote calls are oracles passed as
parameters, and fallible code returns Option or Except.
All text is represented as lists of characters.
-/

namespace MLS

/-- Text is modelled as a list of characters. -/
abbrev Str := List Char

/-- A cursor position, as in the LSP text protocol: zero-based line and character. -/
structure Position where
  line : Nat
  character : Nat
deriving DecidableEq

/-- A source range, in the flat form used on the wire:
lineStart, charStart, lineEnd, charEnd. -/
structure LspRange where
  lineStart : Nat
  charStart : Nat
  lineEnd : Nat
  charEnd : Nat
deriving DecidableEq

/-- The zero range produced by Range.create applied to 0, 0, 0, 0. -/
def zeroRange : LspRange := ⟨0, 0, 0, 0⟩

/-- An LSP location: a document URI together with a range. -/
structure Location where
  uri : Str
  range : LspRange
deriving DecidableEq

/-- Association-list model of a JS Map keyed by text. Lookup returns the
value stored for the key, if any. -/
def assocGet {α : Type} (m : List (Str × α)) (k : Str) : Option α :=
  match m with
  | [] => none
  | (k₂, v) :: rest => if k₂ = k then some v else assocGet rest k

/-- Association-list model of JS Map.set: replaces the value in place if
the key is present, otherwise appends a new entry (preserving insertion
order, as JS Map iteration does). -/
def assocSet {α : Type} (m : List (Str × α)) (k : Str) (v : α) : List (Str × α) :=
  match m with
  | [] => [(k, v)]
  | (k₂, v₂) :: rest => if k₂ = k then (k₂, v) :: rest else (k₂, v₂) :: assocSet rest k v

/-- Union of two association lists with last-writer-wins per key: every
entry of the second argument is written over the first. -/
def assocUnion {α : Type} (old upd : List (Str × α)) : List (Str × α) :=
  upd.foldl (fun acc p => assocSet acc p.1 p.2) old

/- ===== MATLAB side: IndexingHandler.parseFile (workspace index streaming) ===== -/

/-- The base response channel for workspace indexing, from IndexingHandler.
The source comment on this property says it needs to be appended with the
requestId. -/
def WorkspaceIndexingResponseChannel : Str :=
  ("/matlabls/indexWorkspace/response/").toList

/-- MATLAB strcmp on two string scalars: logical true iff they are equal. -/
def strcmp (a b : Str) : Bool := a = b

/-- MATLAB num2str applied to a nonnegative integer: its decimal digits. -/
def num2str (n : Nat) : Str := (Nat.repr n).toList

/-- A MATLAB value used as a publish channel: either a logical scalar or text.
The publish call in parseFile receives whatever the channel expression
evaluated to. -/
inductive MChannel where
  | ofLogical (b : Bool)
  | ofText (s : Str)
deriving DecidableEq

/-- Raw member data (name and range) as produced by the interpreter for a
class property or enumeration. -/
structure RawMemberInfo where
  name : Str
  range : LspRange
deriving DecidableEq

/-- Per-variable data: definition ranges and reference ranges. -/
structure VariableInfo where
  definitions : List LspRange
  references : List LspRange
deriving DecidableEq

/-- Raw per-function data as produced by the interpreter. -/
structure RawFunctionInfo where
  name : Str
  range : LspRange
  declaration : Option LspRange
  parentClass : Str
  isPublic : Bool
  isPrototype : Bool
  variableInfo : List (Str × VariableInfo)
  globals : List Str
deriving DecidableEq

/-- Raw class data as produced by the interpreter. -/
structure RawClassInfo where
  isClassDef : Bool
  hasClassInfo : Bool
  name : Str
  range : LspRange
  declaration : Option LspRange
  properties : List RawMemberInfo
  enumerations : List RawMemberInfo
  classDefFolder : Str
  baseClasses : List Str
deriving DecidableEq

/-- RawCodeData: the payload the interpreter returns for one indexed file. -/
structure RawCodeData where
  packageName : Str
  classInfo : RawClassInfo
  functionInfo : List RawFunctionInfo
  references : List (Str × List LspRange)
deriving DecidableEq

/-- The per-file message parseFile constructs for one streamed workspace
indexing response. -/
structure WsStreamMsg where
  filePath : Str
  codeData : RawCodeData
  isDone : Bool
deriving DecidableEq

/-- Embedding of IndexingHandler.parseFile: given the requestId string and
one file, it builds the per-file message and computes the channel to publish
on. The source computes the channel as strcmp of the base channel and the
requestId, so the channel value is a logical scalar. The computed code data
is a parameter, standing for the result of computeCodeData on the file
contents. -/
def parseFile (computedCodeData : RawCodeData) (requestId : Str) (filePath : Str)
    (isLastFile : Bool) : MChannel × WsStreamMsg :=
  (MChannel.ofLogical (strcmp WorkspaceIndexingResponseChannel requestId),
   ⟨filePath, computedCodeData, isLastFile⟩)

/- ===== DocumentIndexer debouncing ===== -/

/-- Delay in milliseconds after a keystroke before re-indexing, from
DocumentIndexer. -/
def INDEXING_DELAY : Nat := 500

/-- One document URI slice of the DocumentIndexer debounce state. The
pendingFilesToIndex map is keyed by URI and each entry is touched only by
calls for that URI, so a single URI evolves independently. The deadline is
the absolute time at which the armed timer fires; fires records the times
at which indexDocument was invoked by an expired timer. -/
structure DebounceState where
  pendingDeadline : Option Nat
  fires : List Nat
deriving DecidableEq

/-- Embedding of queueIndexingForDocument for one URI, called at absolute
time t: a pending timer whose deadline has already passed (deadline ≤ t) has
fired and its indexDocument call is recorded; a pending timer whose deadline
is still in the future is cancelled by clearTimerForDocumentUri; in either
case a fresh timer is armed for t plus INDEXING_DELAY. -/
def queueIndexStep (st : DebounceState) (t : Nat) : DebounceState :=
  match st.pendingDeadline with
  | some d =>
      if d ≤ t then ⟨some (t + INDEXING_DELAY), st.fires ++ [d]⟩
      else ⟨some (t + INDEXING_DELAY), st.fires⟩
  | none => ⟨some (t + INDEXING_DELAY), st.fires⟩

/-- Runs a whole sequence of queueIndexingForDocument arrivals for one URI
and then lets time run out, so the final pending timer (if any) fires. The
result is the list of times at which indexDocument was called. -/
def runDebounce (arrivals : List Nat) : List Nat :=
  let st := arrivals.foldl queueIndexStep ⟨none, []⟩
  match st.pendingDeadline with
  | some d => st.fires ++ [d]
  | none => st.fires

/-- Arrival times each at or after the previous one and strictly within
INDEXING_DELAY of it. -/
def Chained : Nat → List Nat → Prop
  | _, [] => True
  | t, u :: us => t ≤ u ∧ u < t + INDEXING_DELAY ∧ Chained u us

/- ===== Symbol index data model =====
The FileInfoIndex module itself is not among the provided sources (only
its callers are), so its data carriers and parseAndStoreCodeData are
modelled from the spec, sections 3, 4.3 and 6.1. -/

/-- Modelled from the spec: visibility of a function, Public or Private. -/
inductive FunctionVisibility where
  | Public
  | Private
deriving DecidableEq

/-- Modelled from the spec: FunctionInfo. Name, owning file URI, parent
class name (possibly empty), source range, optional declaration-header
range, visibility, isPrototype, per-variable info and globals. The
FileInfoIndex module defining this carrier is not among the sources. -/
structure MatlabFunctionInfo where
  name : Str
  uri : Str
  parentClass : Str
  range : LspRange
  declaration : Option LspRange
  visibility : FunctionVisibility
  isPrototype : Bool
  variableInfo : List (Str × VariableInfo)
  globals : List Str
deriving DecidableEq

/-- Modelled from the spec: a class member (property or enumeration) with
its name and source range. -/
structure MatlabClassMemberInfo where
  name : Str
  range : LspRange
deriving DecidableEq

/-- Modelled from the spec: ClassInfo. Name, optional owning file URI,
range of the full definition and of the declaration line, properties,
enumerations, methods, classDefFolder and base classes. -/
structure MatlabClassInfo where
  name : Str
  uri : Option Str
  range : LspRange
  declaration : Option LspRange
  properties : List (Str × MatlabClassMemberInfo)
  enumerations : List (Str × MatlabClassMemberInfo)
  methods : List (Str × MatlabFunctionInfo)
  classDefFolder : Str
  baseClasses : List Str
deriving DecidableEq

/-- Modelled from the spec: FileCodeData. Per-file parsed code data: URI,
package name, class-definition flag, optional class info, functions in
insertion order, and observed references keyed by dotted name. -/
structure MatlabCodeData where
  uri : Str
  packageName : Str
  isClassDef : Bool
  classInfo : Option MatlabClassInfo
  functions : List (Str × MatlabFunctionInfo)
  references : List (Str × List LspRange)
deriving DecidableEq

/-- The process-wide symbol index: the code-data cache keyed by file URI
and the class-info cache keyed by fully qualified class name. -/
structure IndexState where
  codeDataCache : List (Str × MatlabCodeData)
  classInfoCache : List (Str × MatlabClassInfo)
deriving DecidableEq

/-- Converts raw member lists into the class member mapping. -/
def rawMembersToList (ms : List RawMemberInfo) : List (Str × MatlabClassMemberInfo) :=
  ms.map (fun m => (m.name, ⟨m.name, m.range⟩))

/-- Converts raw function entries into the function mapping for a file. -/
def rawFunctionsToList (uri : Str) (fs : List RawFunctionInfo) :
    List (Str × MatlabFunctionInfo) :=
  fs.map (fun f => (f.name,
    { name := f.name
      uri := uri
      parentClass := f.parentClass
      range := f.range
      declaration := f.declaration
      visibility := if f.isPublic then FunctionVisibility.Public else FunctionVisibility.Private
      isPrototype := f.isPrototype
      variableInfo := f.variableInfo
      globals := f.globals }))

/-- Builds a fresh ClassInfo from raw class data for a file. -/
def rawClassToClassInfo (uri : Str) (raw : RawCodeData) : MatlabClassInfo :=
  { name := raw.classInfo.name
    uri := some uri
    range := raw.classInfo.range
    declaration := raw.classInfo.declaration
    properties := rawMembersToList raw.classInfo.properties
    enumerations := rawMembersToList raw.classInfo.enumerations
    methods := rawFunctionsToList uri raw.functionInfo
    classDefFolder := raw.classInfo.classDefFolder
    baseClasses := raw.classInfo.baseClasses }

/-- Modelled from the spec: FileInfoIndex.parseAndStoreCodeData, whose
source file is not among the provided sources. It normalizes the raw
structure into the model, merges into an existing ClassInfo when one with
the same name is present (union of properties, enumerations and methods
with last-writer-wins per member name; scalar fields taken from the new
data when the new file is the class definition), and sets the new
FileCodeData under the URI, replacing any prior entry. -/
def parseAndStoreCodeData (uri : Str) (raw : RawCodeData) (st : IndexState) : IndexState :=
  if raw.classInfo.hasClassInfo then
    let fresh := rawClassToClassInfo uri raw
    let merged :=
      match assocGet st.classInfoCache raw.classInfo.name with
      | some old =>
          { name := old.name
            uri := if raw.classInfo.isClassDef then some uri else old.uri
            range := if raw.classInfo.isClassDef then raw.classInfo.range else old.range
            declaration := if raw.classInfo.isClassDef then raw.classInfo.declaration else old.declaration
            properties := assocUnion old.properties fresh.properties
            enumerations := assocUnion old.enumerations fresh.enumerations
            methods := assocUnion old.methods fresh.methods
            classDefFolder := if raw.classInfo.classDefFolder = [] then old.classDefFolder else raw.classInfo.classDefFolder
            baseClasses := if raw.classInfo.isClassDef then raw.classInfo.baseClasses else old.baseClasses }
      | none => fresh
    let cd : MatlabCodeData :=
      { uri := uri
        packageName := raw.packageName
        isClassDef := raw.classInfo.isClassDef
        classInfo := some merged
        functions := rawFunctionsToList uri raw.functionInfo
        references := raw.references }
    { codeDataCache := assocSet st.codeDataCache uri cd
      classInfoCache := assocSet st.classInfoCache raw.classInfo.name merged }
  else
    let cd : MatlabCodeData :=
      { uri := uri
        packageName := raw.packageName
        isClassDef := raw.classInfo.isClassDef
        classInfo := none
        functions := rawFunctionsToList uri raw.functionInfo
        references := raw.references }
    { codeDataCache := assocSet st.codeDataCache uri cd
      classInfoCache := st.classInfoCache }

/- ===== DocumentIndexer.indexDocument ===== -/

/-- Modelled from the spec: the fsPath of a file URI, as computed by the
URI library (not among the sources): the path part after the file scheme. -/
def uriFsPath (uri : Str) : Str :=
  if uri.take 7 = ("file://").toList then uri.drop 7 else uri

/-- A published bus request: channel and payload fields code and filePath,
as sent by getCodeDataForDocument. -/
structure IndexRequestMsg where
  channel : Str
  code : Str
  filePath : Str
deriving DecidableEq

/-- The document indexing request channel from DocumentIndexer. -/
def DocumentIndexingRequestChannel : Str := ("/matlabls/indexDocument/request").toList

/-- Embedding of DocumentIndexer.indexDocument. The connection (present or
absent) and the readiness flag come from MatlabLifecycleManager; when the
guard fails the call returns at once. Otherwise it publishes the
request built from the document text and file path, and the raw code data
the interpreter replies with (a parameter here) is passed to
parseAndStoreCodeData. Returns the new index state and the published
requests. -/
def indexDocument (conn : Option Unit) (isMatlabReady : Bool) (uri : Str)
    (docText : Str) (reply : RawCodeData) (st : IndexState) :
    IndexState × List IndexRequestMsg :=
  match conn with
  | none => (st, [])
  | some _ =>
      if !isMatlabReady then (st, [])
      else
        (parseAndStoreCodeData uri reply st,
         [⟨DocumentIndexingRequestChannel, docText, uriFsPath uri⟩])

/- ===== WorkspaceIndexer response stream handling ===== -/

/-- One streamed workspace indexing response message as received by the
subscription installed in indexFolders. -/
structure WorkspaceFileIndexedResponse where
  isDone : Bool
  filePath : Str
  codeData : RawCodeData
deriving DecidableEq

/-- Modelled from the spec: URI.file applied to a path then rendered as a
string (the URI library is not among the sources). -/
def fileUriOfPath (p : Str) : Str := ("file://").toList ++ p

/-- The state of the subscription handler installed by indexFolders:
whether the response subscription is still live, and the symbol index. -/
structure WsHandlerState where
  subscribed : Bool
  index : IndexState
deriving DecidableEq

/-- Embedding of the message handler indexFolders subscribes on the
response channel of its request: once unsubscribed no further handler
invocation occurs; otherwise, on isDone the handler unsubscribes, and in
every case (including the final message) it converts the file path to a
URI and calls parseAndStoreCodeData. -/
def wsResponseStep (st : WsHandlerState) (m : WorkspaceFileIndexedResponse) : WsHandlerState :=
  if st.subscribed then
    { subscribed := !m.isDone
      index := parseAndStoreCodeData (fileUriOfPath m.filePath) m.codeData st.index }
  else st

/-- Processes a whole stream of responses for one indexFolders request,
starting from a live subscription over the given index. -/
def indexFoldersProcess (idx : IndexState) (msgs : List WorkspaceFileIndexedResponse) :
    WsHandlerState :=
  msgs.foldl wsResponseStep ⟨true, idx⟩

/- ===== NavigationSupportProvider ===== -/

/-- A word character in the sense of the regex class backslash-w:
an ASCII letter, digit or underscore. -/
def isWordChar (c : Char) : Bool := c.isAlpha || c.isDigit || c = '_'

/-- A character matched by the DOTTED_IDENTIFIER_REGEX character class in
the source, which is the regex class of word characters together with the
dot. -/
def isWordOrDot (c : Char) : Bool := isWordChar c || c = '.'

/-- Embedding of JS String.match with the DOTTED_IDENTIFIER_REGEX: finds
the first maximal run of word-or-dot characters, returning its index in
the text and the run, or none when no character matches. -/
def firstMatch : Str → Option (Nat × Str)
  | [] => none
  | c :: rest =>
      if isWordOrDot c then some (0, c :: rest.takeWhile isWordOrDot)
      else
        match firstMatch rest with
        | some (i, m) => some (i + 1, m)
        | none => none

/-- The worker loop of getIdentifierAtPosition. The source repeatedly
matches the regex, breaking with no result when the match index exceeds
the cursor character (the index compared is relative to the truncated
text, while the cursor is absolute), accepting a match whose absolute end
is at or after the cursor, and otherwise truncating the text just past the
match and retrying. Fuel bounds the recursion; each step strictly shortens
the text, so fuel of one more than the length never runs out. -/
def getIdentifierAtPositionAux : Nat → Str → Nat → Nat → Str × Int
  | 0, _, _, _ => ([], -1)
  | fuel + 1, lineText, offset, cursor =>
      match firstMatch lineText with
      | none => ([], -1)
      | some (idx, m) =>
          if idx > cursor then ([], -1)
          else
            let startChar := offset + idx
            if cursor ≤ startChar + m.length then (m, Int.ofNat startChar)
            else getIdentifierAtPositionAux fuel (lineText.drop (idx + m.length))
                   (startChar + m.length) cursor

/-- Embedding of getIdentifierAtPosition on the text of one line: returns
the identifier found at the cursor character and its start, or the empty
identifier with start minus one. -/
def getIdentifierAtPosition (lineText : Str) (cursor : Nat) : Str × Int :=
  getIdentifierAtPositionAux (lineText.length + 1) lineText 0 cursor

/-- Embedding of JS String.split on the dot character: splits into
components, keeping empty components, so consecutive dots yield empty
components and the empty text yields one empty component. -/
def splitDots : Str → List Str
  | [] => [[]]
  | c :: rest =>
      match splitDots rest with
      | [] => [[]]
      | h :: t => if c = '.' then [] :: h :: t else (c :: h) :: t

/-- The component-walking loop of getTarget: starting from accumulated
length len and index i, advances while the accumulated length (each
component plus one for the dot) stays at or below the bound, and returns
the final index. -/
def selectComponentAux : List Str → Int → Int → Nat → Nat
  | [], _, _, i => i
  | c :: rest, len, bound, i =>
      if len ≤ bound then selectComponentAux rest (len + c.length + 1) bound (i + 1)
      else i

/-- The transient expression produced for one navigation request: the
dotted components and the index of the component the cursor sits on
(minus one when the walk consumed nothing). -/
structure Expression where
  components : List Str
  selectedComponent : Int
deriving DecidableEq

/-- The components joined with dots. -/
def Expression.fullExpression (e : Expression) : Str :=
  List.intercalate (['.']) e.components

/-- The components up to and including the selected one, joined with dots. -/
def Expression.targetExpression (e : Expression) : Str :=
  List.intercalate (['.']) (e.components.take ((e.selectedComponent + 1).toNat))

/-- The selected component alone; none models the undefined JS indexing
result when the selected index is negative or out of bounds. -/
def Expression.unqualifiedTarget (e : Expression) : Option Str :=
  if e.selectedComponent < 0 then none else e.components.get? e.selectedComponent.toNat

/-- The final component; the empty text models indexing one before the
start of an empty component list. -/
def Expression.lastComponent (e : Expression) : Str :=
  e.components.getLastD []

/-- A text document, as the list of its lines. -/
structure TextDocument where
  lines : List Str
deriving DecidableEq

/-- Modelled from the spec: the text on one line of a document (the
TextDocumentUtils module is not among the sources); an out-of-range line
gives empty text. -/
def getTextOnLine (doc : TextDocument) (line : Nat) : Str :=
  doc.lines.getD line []

/-- Embedding of getTarget: extracts the identifier at the position, and
when one is found splits it on dots and walks component lengths to find
the selected component; the loop counter i overshoots by one, compensated
by subtracting one. -/
def getTarget (doc : TextDocument) (pos : Position) : Option Expression :=
  let r := getIdentifierAtPosition (getTextOnLine doc pos.line) pos.character
  if r.1 = [] then none
  else
    let idComponents := splitDots r.1
    let i := selectComponentAux idComponents 0 ((pos.character : Int) - r.2) 0
    some ⟨idComponents, (i : Int) - 1⟩

/-- The two request kinds served by handleDefOrRefRequest. -/
inductive RequestType where
  | Definition
  | References
deriving DecidableEq

/-- Embedding of getVariableDefsOrRefs: looks the variable name up in the
containing function and maps the definition or reference ranges to
locations at the given URI; the name is optional because the selected
component may be absent. -/
def getVariableDefsOrRefs (containingFunction : MatlabFunctionInfo)
    (variableName : Option Str) (uri : Str) (requestType : RequestType) :
    Option (List Location) :=
  match variableName with
  | none => none
  | some v =>
      match assocGet containingFunction.variableInfo v with
      | none => none
      | some vi =>
          some ((if requestType = RequestType.Definition then vi.definitions
                 else vi.references).map (fun r => Location.mk uri r))

/-- Whether the first position is at or before the second. -/
def posBefore (l c : Nat) (p : Position) : Bool :=
  l < p.line || (l = p.line && c ≤ p.character)

/-- Whether a range encloses a position. -/
def rangeContainsPos (r : LspRange) (p : Position) : Bool :=
  posBefore r.lineStart r.charStart p &&
    (p.line < r.lineEnd || (p.line = r.lineEnd && p.character ≤ r.charEnd))

/-- Modelled from the spec: findContainingFunction of FileInfoIndex (not
among the sources) returns the innermost function of the file whose range
encloses the position, here the enclosing function whose start is
latest. -/
def findContainingFunction (cd : MatlabCodeData) (pos : Position) :
    Option MatlabFunctionInfo :=
  cd.functions.foldl
    (fun acc p =>
      if rangeContainsPos p.2.range pos then
        match acc with
        | none => some p.2
        | some g =>
            if posBefore p.2.range.lineStart p.2.range.charStart
                ⟨g.range.lineStart, g.range.charStart⟩ then some g
            else some p.2
      else acc)
    none

/-- Embedding of getFunctionDeclaration: looks the name up among the file
functions, and for a class file whose lookup missed or hit a prototype,
prefers the entry in the class methods when present. -/
def getFunctionDeclaration (cd : MatlabCodeData) (functionName : Str) :
    Option MatlabFunctionInfo :=
  let fd := assocGet cd.functions functionName
  if cd.isClassDef &&
      (match fd with
       | none => true
       | some f => f.isPrototype) then
    match cd.classInfo with
    | some ci =>
        match assocGet ci.methods functionName with
        | some m => some m
        | none => fd
    | none => fd
  else fd

/-- Embedding of getPropertyDeclaration: the named property of the class
of the file, when the file has class info. -/
def getPropertyDeclaration (cd : MatlabCodeData) (propertyName : Str) :
    Option MatlabClassMemberInfo :=
  match cd.classInfo with
  | none => none
  | some ci => assocGet ci.properties propertyName

/-- The scope-local variable stage shared by the definition and reference
searches: only when the cursor is on component zero, and only when a
containing function holds info for the selected component. -/
def localVariableStage (uri : Str) (pos : Position) (e : Expression)
    (cd : MatlabCodeData) (requestType : RequestType) : Option (List Location) :=
  if e.selectedComponent = 0 then
    match findContainingFunction cd pos with
    | some cf => getVariableDefsOrRefs cf e.unqualifiedTarget uri requestType
    | none => none
  else none

/-- Embedding of findDefinitionInCodeData: the scope-local variable stage,
then the in-file function stage (declaration range, or the zero range when
the declaration is absent), then for class files the method lookup on the
last component and the property lookup when the cursor is on component
one. -/
def findDefinitionInCodeData (uri : Str) (pos : Position) (e : Expression)
    (cd : MatlabCodeData) : Option (List Location) :=
  match localVariableStage uri pos e cd RequestType.Definition with
  | some locs => some locs
  | none =>
      match getFunctionDeclaration cd e.fullExpression with
      | some fd => some [Location.mk fd.uri (fd.declaration.getD zeroRange)]
      | none =>
          if cd.isClassDef then
            match cd.classInfo with
            | some ci =>
                match getFunctionDeclaration cd e.lastComponent with
                | some fd => some [Location.mk fd.uri (fd.declaration.getD zeroRange)]
                | none =>
                    if e.selectedComponent = 1 then
                      match getPropertyDeclaration cd e.lastComponent with
                      | some pd =>
                          match ci.uri with
                          | some u => some [Location.mk u (LspRange.mk pd.range.lineStart pd.range.charStart pd.range.lineEnd pd.range.charEnd)]
                          | none => none
                      | none => none
                    else none
            | none => none
          else none

/-- The cross-file part of findReferencesInCodeData: accumulates, over the
whole code-data cache in insertion order, the reference ranges for the
full expression, skipping files in which that name is a private
function. -/
def referencesAcrossFiles (fullExpr : Str) (cache : List (Str × MatlabCodeData)) :
    List Location :=
  cache.foldl
    (fun refs p =>
      let fileCodeData := p.2
      if (match assocGet fileCodeData.functions fullExpr with
          | some f => f.visibility == FunctionVisibility.Private
          | none => false) then refs
      else
        match assocGet fileCodeData.references fullExpr with
        | some rs => refs ++ rs.map (fun r => Location.mk fileCodeData.uri r)
        | none => refs)
    []

/-- Embedding of findReferencesInCodeData: the scope-local variable stage;
then, when the full expression names a private function of this file, the
reference ranges recorded in this file; otherwise the cross-file
accumulation. -/
def findReferencesInCodeData (uri : Str) (pos : Position) (e : Expression)
    (cd : MatlabCodeData) (cache : List (Str × MatlabCodeData)) : List Location :=
  match localVariableStage uri pos e cd RequestType.References with
  | some locs => locs
  | none =>
      match getFunctionDeclaration cd e.fullExpression with
      | some fd =>
          if fd.visibility = FunctionVisibility.Private then
            ((assocGet cd.references fd.name).getD []).map (fun r => Location.mk uri r)
          else referencesAcrossFiles e.fullExpression cache
      | none => referencesAcrossFiles e.fullExpression cache

/-- Embedding of findReferences: when the file has no cached code data the
result is empty, otherwise the in-code-data search runs. -/
def findReferences (uri : Str) (pos : Position) (e : Expression)
    (cache : List (Str × MatlabCodeData)) : List Location :=
  match assocGet cache uri with
  | none => []
  | some cd => findReferencesInCodeData uri pos e cd cache

/-- The member scan of findDefinitionInWorkspace over properties or
enumerations: the first member whose qualified candidate (the class match
text, a dot, then the member name) equals the expression yields its range
at the class URI. -/
def wsCheckMembers (expr : Str) (classUri : Str) (matchText : Str)
    (members : List (Str × MatlabClassMemberInfo)) : Option (List Location) :=
  match members with
  | [] => none
  | (memberName, memberData) :: rest =>
      if expr = matchText ++ ['.'] ++ memberName then
        some [Location.mk classUri memberData.range]
      else wsCheckMembers expr classUri matchText rest

/-- The function scan of findDefinitionInWorkspace: the candidate is the
function name alone when the match text is empty, otherwise the match
text, a dot, and the function name; the first equal candidate yields the
declaration range (or the zero range) at the function URI. -/
def wsCheckFunctions (expr : Str) (matchText : Str)
    (funcs : List (Str × MatlabFunctionInfo)) : Option (List Location) :=
  match funcs with
  | [] => none
  | (funcName, funcData) :: rest =>
      let funcMatch := if matchText = [] then funcName else matchText ++ ['.'] ++ funcName
      if expr = funcMatch then
        some [Location.mk funcData.uri (funcData.declaration.getD zeroRange)]
      else wsCheckFunctions expr matchText rest

/-- The per-file body of the findDefinitionInWorkspace loop: builds the
match text from the package name (with a trailing dot when non-empty),
then for a file with class info (skipped entirely when the class URI is
absent) checks the class name, the properties, the enumerations and the
functions; for a file without class info checks only the functions. -/
def workspaceSearchFile (expr : Str) (cd : MatlabCodeData) : Option (List Location) :=
  let matchBase := if cd.packageName = [] then ([] : Str) else cd.packageName ++ ['.']
  match cd.classInfo with
  | some ci =>
      match ci.uri with
      | none => none
      | some classUri =>
          let matchText := matchBase ++ ci.name
          if expr = matchText then
            some [Location.mk classUri (ci.declaration.getD zeroRange)]
          else
            match wsCheckMembers expr classUri matchText ci.properties with
            | some r => some r
            | none =>
                match wsCheckMembers expr classUri matchText ci.enumerations with
                | some r => some r
                | none => wsCheckFunctions expr matchText cd.functions
  | none => wsCheckFunctions expr matchBase cd.functions

/-- Embedding of findDefinitionInWorkspace: iterates the code-data cache
in insertion order, skipping the originating URI, and returns the first
match found by the per-file scan, or the empty list. -/
def findDefinitionInWorkspace (uri : Str) (e : Expression)
    (cache : List (Str × MatlabCodeData)) : List Location :=
  match cache with
  | [] => []
  | (fileUri, cd) :: rest =>
      if uri = fileUri then findDefinitionInWorkspace uri e rest
      else
        match workspaceSearchFile e.fullExpression cd with
        | some locs => locs
        | none => findDefinitionInWorkspace uri e rest

/-- Oracle for the effects findDefinitionOnPath performs through
collaborators that are not among the sources: the path resolver round trip
(modelled from the spec as yielding the resolved URI, empty when not
found), the directory test on the resolved URI, and the raw code data that
indexing the resolved file would obtain (none when indexing stores
nothing). -/
structure NavOracle where
  resolvePathUri : Str → Str → Str
  isDirectory : Str → Bool
  indexFileResult : Str → Option RawCodeData

/-- Embedding of findDefinitionOnPath: resolves the target expression from
the current URI; an empty resolution or a directory gives no result;
otherwise the resolved file is indexed when absent from the cache, the
in-code-data search is retried there, and failing that a zero-range
location at the resolved URI is returned. -/
def findDefinitionOnPath (uri : Str) (pos : Position) (e : Expression)
    (oracle : NavOracle) (st : IndexState) : Option (List Location) × IndexState :=
  let resolvedUri := oracle.resolvePathUri e.targetExpression uri
  if resolvedUri = [] then (none, st)
  else if oracle.isDirectory resolvedUri then (none, st)
  else
    let st₂ :=
      if (assocGet st.codeDataCache resolvedUri).isSome then st
      else
        match oracle.indexFileResult resolvedUri with
        | some raw => parseAndStoreCodeData resolvedUri raw st
        | none => st
    match assocGet st₂.codeDataCache resolvedUri with
    | some cd =>
        match findDefinitionInCodeData resolvedUri pos e cd with
        | some d => (some d, st₂)
        | none => (some [Location.mk resolvedUri zeroRange], st₂)
    | none => (some [Location.mk resolvedUri zeroRange], st₂)

/-- Embedding of findDefinition: no cached code data for the file gives
the empty list; otherwise the in-file search, then the path search, then
the workspace search. -/
def findDefinition (uri : Str) (pos : Position) (e : Expression)
    (oracle : NavOracle) (st : IndexState) : List Location × IndexState :=
  match assocGet st.codeDataCache uri with
  | none => ([], st)
  | some cd =>
      match findDefinitionInCodeData uri pos e cd with
      | some locs => (locs, st)
      | none =>
          match findDefinitionOnPath uri pos e oracle st with
          | (some locs, st₂) => (locs, st₂)
          | (none, st₂) => (findDefinitionInWorkspace uri e st₂.codeDataCache, st₂)

/-- Embedding of handleDefOrRefRequest: an absent connection or an
unopened document gives the empty list, as does an absent target
expression; otherwise the definition or references search runs. The
document manager is the map of open documents by URI; the returned state
is the possibly updated symbol index. -/
def handleDefOrRefRequest (conn : Option Unit)
    (documentManager : List (Str × TextDocument)) (reqUri : Str) (pos : Position)
    (requestType : RequestType) (oracle : NavOracle) (st : IndexState) :
    List Location × IndexState :=
  match conn with
  | none => ([], st)
  | some _ =>
      match assocGet documentManager reqUri with
      | none => ([], st)
      | some doc =>
          match getTarget doc pos with
          | none => ([], st)
          | some e =>
              if requestType = RequestType.Definition then
                findDefinition reqUri pos e oracle st
              else (findReferences reqUri pos e st.codeDataCache, st)

/-- Follows the words of the spec: one component of a dotted identifier,
a letter or underscore followed by word characters. -/
def isIdentComponent (s : Str) : Bool :=
  match s with
  | [] => false
  | c :: rest => (c.isAlpha || c = '_') && rest.all isWordChar

/-- Follows the words of the spec: the dotted-identifier syntax claimed
for extracted expressions, components of identifier shape joined by
single dots; such text never starts with a digit and never contains
consecutive dots. -/
def dottedIdentifierSpecShape (s : Str) : Bool :=
  s ≠ [] && (splitDots s).all isIdentComponent

/- ===== MATLAB side: whichHelper (path resolver) ===== -/

/-- Splits text on a separator character, keeping empty components, as
the MATLAB split function does. -/
def splitOnChar (sep : Char) : Str → List Str
  | [] => [[]]
  | c :: rest =>
      match splitOnChar sep rest with
      | [] => [[]]
      | h :: t => if c = sep then [] :: h :: t else (c :: h) :: t

/-- Whether the text starts with the given literal. -/
def startsWithStr (pre : String) (s : Str) : Bool :=
  List.isPrefixOf pre.toList s

/-- The directory part of a path: everything before the final separator
(the separator is modelled as the forward slash). -/
def fileparts (p : Str) : Str :=
  match (p.reverse).dropWhile (fun c => c ≠ '/') with
  | [] => []
  | _ :: rest => rest.reverse

/-- The 1-based index of the last path component that starts with neither
the package marker nor the class marker, as computed by the backwards loop
of step 4 of whichHelper; none when every component is marked. -/
def lastPlainIdxAux : List Str → Nat → Option Nat → Option Nat
  | [], _, acc => acc
  | p :: rest, i, acc =>
      lastPlainIdxAux rest (i + 1)
        (if !(startsWithStr "+" p || startsWithStr "@" p) then some (i + 1) else acc)

/-- The entry point of the step-4 ancestor search index. -/
def lastPlainIdx (parts : List Str) : Option Nat :=
  lastPlainIdxAux parts 0 none

/-- The fileInfo struct computeFileInfo builds: resolved file name, the
line and character at which the inner symbol was found (zero when not
found), and the computed code data of the resolved file. -/
structure WhichFileInfo where
  fileName : Str
  line : Nat
  char : Nat
  codeData : RawCodeData
deriving DecidableEq

/-- Oracle for the ambient interpreter state consulted by whichHelper:
directory and file existence, the result of the which lookup as a function
of the current directory and the queried name (empty text when which finds
nothing), whether a checkedCd sticks (it is undone on a dispatcher name
conflict warning), and the result of computeFileInfo on a file and name
(none models the empty result for a nonexistent file). -/
structure FsOracle where
  existDir : Str → Bool
  existFile : Str → Bool
  whichFrom : Str → Str → Str
  cdSticks : Str → Bool
  computeFileInfoRes : Str → Str → Option WhichFileInfo

/-- Embedding of checkedCd: changes to the target directory unless the
change is reverted because of a name-conflict warning. -/
def checkedCd (o : FsOracle) (pwd target : Str) : Str :=
  if o.cdSticks target then target else pwd

/-- Embedding of the whichHelper function of the interpreter helpers.
The five steps of the source run in order, threading the current
directory: the private subfolder, the class-folder sibling, the path from
the containing directory, the nearest plain ancestor, and finally the
dot-chain prefix with the requires-symbol-search flag. A result whose
symbol line is at most one under that flag is discarded; accessing the
line field of an empty computeFileInfo result under that flag is a MATLAB
error, modelled by the error case. -/
def whichHelper (o : FsOracle) (pwd₀ : Str) (containingFile nm : Str) :
    Except Unit (Option WhichFileInfo) :=
  let containingDir := fileparts containingFile
  let privateDir := containingDir ++ ['/'] ++ ("private").toList
  let d₁ := if o.existDir privateDir then checkedCd o pwd₀ privateDir else pwd₀
  let step1 : Option (Option WhichFileInfo) :=
    if o.existDir privateDir then
      let file := o.whichFrom d₁ nm
      if file ≠ [] ∧ o.existFile file then some (o.computeFileInfoRes file nm)
      else none
    else none
  match step1 with
  | some res => Except.ok res
  | none =>
      let pathParts := splitOnChar '/' containingDir
      let isClassDir := pathParts ≠ [] && startsWithStr "@" (pathParts.getLastD [])
      let fcnFile := containingDir ++ ['/'] ++ nm ++ (".m").toList
      if isClassDir && o.existFile fcnFile then Except.ok (o.computeFileInfoRes fcnFile nm)
      else
        let d₂ := if o.existDir containingDir && !isClassDir then checkedCd o d₁ containingDir else d₁
        let file₁ := o.whichFrom d₂ nm
        let step4 : Str × Str :=
          if file₁ = [] then
            match lastPlainIdx pathParts with
            | some k =>
                let d := checkedCd o d₂ (List.intercalate (['/']) (pathParts.take k))
                (d, o.whichFrom d nm)
            | none => (d₂, file₁)
          else (d₂, file₁)
        let step5 : Str × Bool :=
          if step4.2 = [] then
            let identifierParts := splitDots nm
            if identifierParts.length > 1 then
              (o.whichFrom step4.1 (List.intercalate (['.']) identifierParts.dropLast), true)
            else (step4.2, false)
          else (step4.2, false)
        if step5.1 = [] then Except.ok none
        else
          match o.computeFileInfoRes step5.1 nm with
          | none => if step5.2 then Except.error () else Except.ok none
          | some fi =>
              if step5.2 && fi.line ≤ 1 then Except.ok none
              else Except.ok (some fi)

/- ===== Concrete fixtures and derived notions used by the theorems ===== -/

/-- The identifier found at a position is a nonempty maximal run of
word-or-dot characters of the line starting at index s: it is the text of
the line there, the character just past it (when the line continues) is
not word-or-dot, and it starts either at the line start or just after a
character that is not word-or-dot. -/
def isMaximalRunAt (line : Str) (s : Nat) (m : Str) : Prop :=
  m ≠ [] ∧ m.all isWordOrDot = true ∧ (line.drop s).take m.length = m ∧
  (∀ c, line.get? (s + m.length) = some c → isWordOrDot c = false) ∧
  (s = 0 ∨ ∀ c, line.get? (s - 1) = some c → isWordOrDot c = false)

/-- Folding parseAndStoreCodeData over a stream of workspace responses in
order, as the subscription handler does while it stays subscribed. -/
def foldParse (idx : IndexState) (msgs : List WorkspaceFileIndexedResponse) : IndexState :=
  msgs.foldl (fun i m => parseAndStoreCodeData (fileUriOfPath m.filePath) m.codeData i) idx

/-- Raw class data for a plain file with no class. -/
def emptyRawClassInfo : RawClassInfo :=
  ⟨false, false, [], zeroRange, none, [], [], [], []⟩

/-- Raw code data for an empty plain file. -/
def emptyRawCodeData : RawCodeData :=
  ⟨[], emptyRawClassInfo, [], []⟩

/-- A navigation oracle that resolves nothing. -/
def trivialNavOracle : NavOracle :=
  ⟨fun _ _ => [], fun _ => false, fun _ => none⟩

/-- Fixture for the in-file function stage: a function without a recorded
declaration range but with a nonzero whole range. -/
def c2FooInfo : MatlabFunctionInfo :=
  { name := ("foo").toList
    uri := ("file:///a.m").toList
    parentClass := []
    range := ⟨3, 0, 5, 3⟩
    declaration := none
    visibility := FunctionVisibility.Public
    isPrototype := false
    variableInfo := []
    globals := [] }

/-- Fixture file data holding only c2FooInfo. -/
def c2CodeData : MatlabCodeData :=
  { uri := ("file:///a.m").toList
    packageName := []
    isClassDef := false
    classInfo := none
    functions := [(("foo").toList, c2FooInfo)]
    references := [] }

/-- Fixture for the in-file function stage: a function with a declaration
range. -/
def c2BarInfo : MatlabFunctionInfo :=
  { name := ("bar").toList
    uri := ("file:///b.m").toList
    parentClass := []
    range := ⟨2, 0, 4, 3⟩
    declaration := some ⟨2, 0, 2, 9⟩
    visibility := FunctionVisibility.Public
    isPrototype := false
    variableInfo := []
    globals := [] }

/-- Fixture file data holding only c2BarInfo. -/
def c2BarCodeData : MatlabCodeData :=
  { uri := ("file:///b.m").toList
    packageName := []
    isClassDef := false
    classInfo := none
    functions := [(("bar").toList, c2BarInfo)]
    references := [] }

/-- Fixture for the workspace stage: function f in package p, in a file
with no class info. -/
def c9FunctionF : MatlabFunctionInfo :=
  { name := ("f").toList
    uri := ("file:///w/+p/f.m").toList
    parentClass := []
    range := ⟨1, 0, 2, 3⟩
    declaration := some ⟨1, 0, 1, 10⟩
    visibility := FunctionVisibility.Public
    isPrototype := false
    variableInfo := []
    globals := [] }

/-- Fixture file data for c9FunctionF with package name p. -/
def c9CodeData : MatlabCodeData :=
  { uri := ("file:///w/+p/f.m").toList
    packageName := ("p").toList
    isClassDef := false
    classInfo := none
    functions := [(("f").toList, c9FunctionF)]
    references := [] }

/-- Fixture streamed message for a first workspace file. -/
def c7MsgA : WorkspaceFileIndexedResponse :=
  ⟨false, ("/w/a.m").toList, emptyRawCodeData⟩

/-- Fixture streamed message for a final workspace file. -/
def c7MsgB : WorkspaceFileIndexedResponse :=
  ⟨true, ("/w/b.m").toList, emptyRawCodeData⟩

/-- Fixture interpreter-state oracle for the dot-chain case: nothing on
disk, the full name a.b is nowhere on the path, the front end a resolves
to a file whose symbol search lands on line one. -/
def c8Oracle : FsOracle :=
  { existDir := fun _ => false
    existFile := fun _ => false
    whichFrom := fun _ n => if n = ("a").toList then ("/z/a.m").toList else []
    cdSticks := fun _ => true
    computeFileInfoRes := fun f _ => some ⟨f, 1, 0, emptyRawCodeData⟩ }

/- ===== Shared lemmas ===== -/

/-- Looking a key up after a set: the set key maps to the new value, any
other key is unchanged. -/
theorem assocGet_assocSet {α : Type} (m : List (Str × α)) (k q : Str) (v : α) :
    assocGet (assocSet m k v) q = if k = q then some v else assocGet m q := by
  induction m with
  | nil =>
      simp only [assocSet, assocGet]
  | cons p rest ih =>
      obtain ⟨k₂, v₂⟩ := p
      by_cases hk : k₂ = k
      · subst hk
        by_cases hq : k₂ = q
        · simp [assocSet, assocGet, hq]
        · simp [assocSet, assocGet, hq]
      · by_cases hq : k₂ = q
        · subst hq
          simp [assocSet, assocGet, hk, Ne.symm hk]
        · simp [assocSet, assocGet, hk, hq, ih]

/-- parseAndStoreCodeData always leaves an entry for the stored URI. -/
theorem parseAndStore_get_self (uri : Str) (raw : RawCodeData) (st : IndexState) :
    (assocGet (parseAndStoreCodeData uri raw st).codeDataCache uri).isSome = true := by
  unfold parseAndStoreCodeData
  split
  · simp [assocGet_assocSet]
  · simp [assocGet_assocSet]

/-- parseAndStoreCodeData never drops an existing code-data entry. -/
theorem parseAndStore_preserves_some (uri k : Str) (raw : RawCodeData) (st : IndexState)
    (h : (assocGet st.codeDataCache k).isSome = true) :
    (assocGet (parseAndStoreCodeData uri raw st).codeDataCache k).isSome = true := by
  unfold parseAndStoreCodeData
  split
  · simp only [assocGet_assocSet]
    split
    · simp
    · exact h
  · simp only [assocGet_assocSet]
    split
    · simp
    · exact h

/-- foldParse never drops an existing code-data entry. -/
theorem foldParse_preserves_some (msgs : List WorkspaceFileIndexedResponse) :
    ∀ (idx : IndexState) (k : Str),
      (assocGet idx.codeDataCache k).isSome = true →
      (assocGet (foldParse idx msgs).codeDataCache k).isSome = true := by
  induction msgs with
  | nil => intro idx k h; exact h
  | cons m rest ih =>
      intro idx k h
      have h₂ := parseAndStore_preserves_some (fileUriOfPath m.filePath) k m.codeData idx h
      exact ih _ k h₂

/-- After foldParse, every streamed file has an entry in the code-data
cache. -/
theorem foldParse_mem (msgs : List WorkspaceFileIndexedResponse) :
    ∀ (idx : IndexState) (m : WorkspaceFileIndexedResponse), m ∈ msgs →
      (assocGet (foldParse idx msgs).codeDataCache (fileUriOfPath m.filePath)).isSome = true := by
  induction msgs with
  | nil => intro idx m h; cases h
  | cons m₀ rest ih =>
      intro idx m h
      rcases List.mem_cons.mp h with h | h
      · subst h
        exact foldParse_preserves_some rest _ _
          (parseAndStore_get_self (fileUriOfPath m.filePath) m.codeData idx)
      · exact ih _ m h

/- ===== Claim theorems ===== -/

/-- C1: the claim says the interpreter-side indexing handler publishes
each per-file message on the channel formed by appending the decimal
requestId to the base workspace response channel. The source instead
computes the channel with strcmp (string comparison, not concatenation),
so for the request id 1 the published channel is the logical scalar false
and not the appended text channel the server subscribed to. -/
theorem c1_parseFile_channel_is_strcmp_logical :
    (parseFile emptyRawCodeData (num2str 1) (("/w/a.m").toList) true).1
        = MChannel.ofLogical false ∧
      (parseFile emptyRawCodeData (num2str 1) (("/w/a.m").toList) true).1
        ≠ MChannel.ofText (WorkspaceIndexingResponseChannel ++ num2str 1) := by
  constructor
  · decide
  · decide

/-- C4: the claim says a candidate match covers the cursor exactly when
its start is at or before the cursor and its end at or after it. On the
line holding a, two spaces, then bcd, with the cursor at character 2, the
first match a ends strictly before the cursor, the scan truncates the
line, and the relative index of the following match bcd (2) is compared
against the absolute cursor (2), so bcd is accepted even though its
absolute start 3 lies strictly after the cursor. -/
theorem c4_accepts_match_starting_after_cursor :
    getIdentifierAtPosition (("a  bcd").toList) 2 = ((("bcd").toList), 3) ∧
      (2 : Int) < (getIdentifierAtPosition (("a  bcd").toList) 2).2 := by
  constructor
  · decide
  · decide

/-- C9: the claim says a function f in a file with non-empty package p and
no class is found by the workspace-wide stage when the full expression is
p.f. The source builds the match text as the package name with a trailing
dot and then joins it to the function name with another dot, producing the
candidate p..f, so the expression p.f finds nothing. -/
theorem c9_package_function_not_found :
    findDefinitionInWorkspace (("file:///w/other.m").toList)
        ⟨[("p").toList, ("f").toList], 0⟩ [((("file:///w/+p/f.m").toList), c9CodeData)]
      = [] := by
  decide

/-- C6: when the interpreter connection is absent or the interpreter is
not ready, indexDocument returns without publishing any request and with
the code-data and class-info caches exactly as they were. -/
theorem c6_indexDocument_unavailable_no_effect (conn : Option Unit) (ready : Bool)
    (uri docText : Str) (reply : RawCodeData) (st : IndexState)
    (h : conn = none ∨ ready = false) :
    indexDocument conn ready uri docText reply st = (st, []) := by
  rcases h with h | h
  · subst h
    rfl
  · subst h
    cases conn with
    | none => rfl
    | some u => rfl

/-- Witness for C6 at a concrete document with the connection absent. -/
theorem c6_indexDocument_unavailable_no_effect_witness :
    indexDocument none true (("file:///a.m").toList) (("x = 1").toList)
        emptyRawCodeData ⟨[], []⟩ = (⟨[], []⟩, []) :=
  c6_indexDocument_unavailable_no_effect none true (("file:///a.m").toList)
    (("x = 1").toList) emptyRawCodeData ⟨[], []⟩ (Or.inl rfl)

/-- C2 counterexample: for a function found in the functions mapping whose
declaration range is absent, the in-file function stage returns the zero
range, not the function whole range (lines three to five here), refuting
the claimed whole-range fallback. -/
theorem c2_zero_range_not_whole_range :
    findDefinitionInCodeData (("file:///a.m").toList) ⟨0, 0⟩
        ⟨[("foo").toList], 0⟩ c2CodeData
      = some [Location.mk (("file:///a.m").toList) zeroRange] ∧
      zeroRange ≠ c2FooInfo.range := by
  constructor
  · decide
  · decide

/-- C2 as amended: in the in-file function stage (after the scope-local
variable stage yields nothing), a function found by the declaration lookup
yields a single location at its URI whose range is its declaration range,
or the zero range when the declaration range is absent. -/
theorem c2_infile_function_stage (uri : Str) (pos : Position) (e : Expression)
    (cd : MatlabCodeData) (f : MatlabFunctionInfo)
    (h₁ : localVariableStage uri pos e cd RequestType.Definition = none)
    (h₂ : getFunctionDeclaration cd e.fullExpression = some f) :
    findDefinitionInCodeData uri pos e cd
      = some [Location.mk f.uri (f.declaration.getD zeroRange)] := by
  unfold findDefinitionInCodeData
  rw [h₁, h₂]

/-- Witness for C2 at a concrete file whose function has a declaration
range. -/
theorem c2_infile_function_stage_witness :
    findDefinitionInCodeData (("file:///b.m").toList) ⟨0, 0⟩
        ⟨[("bar").toList], 0⟩ c2BarCodeData
      = some [Location.mk c2BarInfo.uri (c2BarInfo.declaration.getD zeroRange)] :=
  c2_infile_function_stage (("file:///b.m").toList) ⟨0, 0⟩
    ⟨[("bar").toList], 0⟩ c2BarCodeData c2BarInfo (by decide) (by decide)

/-- C10: handleDefOrRefRequest returns exactly the empty list and leaves
the symbol index untouched when the connection is absent, or the document
is not open in the document manager, or the file has no entry in the
code-data cache. -/
theorem c10_handleDefOrRefRequest_guards (conn : Option Unit)
    (dm : List (Str × TextDocument)) (reqUri : Str) (pos : Position)
    (rt : RequestType) (oracle : NavOracle) (st : IndexState)
    (h : conn = none ∨ assocGet dm reqUri = none ∨
      assocGet st.codeDataCache reqUri = none) :
    handleDefOrRefRequest conn dm reqUri pos rt oracle st = ([], st) := by
  rcases h with h | h | h
  · subst h
    rfl
  · cases conn with
    | none => rfl
    | some u => simp [handleDefOrRefRequest, h]
  · cases conn with
    | none => rfl
    | some u =>
        cases hdm : assocGet dm reqUri with
        | none => simp [handleDefOrRefRequest, hdm]
        | some doc =>
            cases ht : getTarget doc pos with
            | none => simp [handleDefOrRefRequest, hdm, ht]
            | some e =>
                cases rt with
                | Definition =>
                    simp [handleDefOrRefRequest, hdm, ht, findDefinition, h]
                | References =>
                    simp [handleDefOrRefRequest, hdm, ht, findReferences, h]

/-- Witness for C10 at a concrete request whose document is not open. -/
theorem c10_handleDefOrRefRequest_guards_witness :
    handleDefOrRefRequest (some ()) [] (("file:///x.m").toList) ⟨0, 0⟩
        RequestType.Definition trivialNavOracle ⟨[], []⟩ = ([], ⟨[], []⟩) :=
  c10_handleDefOrRefRequest_guards (some ()) [] (("file:///x.m").toList) ⟨0, 0⟩
    RequestType.Definition trivialNavOracle ⟨[], []⟩ (Or.inr (Or.inl rfl))

/-- Under chained arrivals, each queueIndexStep cancels the still-pending
timer (its deadline lies strictly in the future) and arms a fresh one for
the new arrival, firing nothing. -/
theorem debounce_fold_chained (rest : List Nat) :
    ∀ (t : Nat) (fires : List Nat), Chained t rest →
      rest.foldl queueIndexStep ⟨some (t + INDEXING_DELAY), fires⟩
        = ⟨some ((rest.getLastD t) + INDEXING_DELAY), fires⟩ := by
  induction rest with
  | nil =>
      intro t fires _
      rfl
  | cons u us ih =>
      intro t fires h
      obtain ⟨h₁, h₂, h₃⟩ := h
      have hstep : queueIndexStep ⟨some (t + INDEXING_DELAY), fires⟩ u
          = ⟨some (u + INDEXING_DELAY), fires⟩ := by
        simp [queueIndexStep, Nat.not_le.mpr h₂]
      rw [List.foldl_cons, hstep, ih u fires h₃, List.getLastD_cons]

/-- C5: when queueIndex arrives N times for one URI, each arrival at or
after the previous one and strictly within the 500 ms delay of it, every
earlier pending timer is cancelled before a new one is armed, and exactly
one indexDocument call results, fired 500 ms after the last arrival. -/
theorem c5_debounce_single_fire (t : Nat) (rest : List Nat)
    (h : Chained t rest) :
    runDebounce (t :: rest) = [(rest.getLastD t) + INDEXING_DELAY] := by
  unfold runDebounce
  rw [List.foldl_cons]
  have h₀ : queueIndexStep ⟨none, []⟩ t = ⟨some (t + INDEXING_DELAY), []⟩ := rfl
  rw [h₀, debounce_fold_chained rest t [] h]
  rfl

/-- Witness for C5: three arrivals at 0, 100 and 300 yield exactly the
fire at 800. -/
theorem c5_debounce_single_fire_witness :
    runDebounce [0, 100, 300] = [800] :=
  c5_debounce_single_fire 0 [100, 300]
    ⟨by norm_num, by norm_num [INDEXING_DELAY],
     by norm_num, by norm_num [INDEXING_DELAY], trivial⟩

/-- While every streamed message is flagged not done, the subscription
handler stays subscribed and parses each message in order. -/
theorem ws_process_not_done (ms : List WorkspaceFileIndexedResponse) :
    ∀ (idx : IndexState), (∀ m ∈ ms, m.isDone = false) →
      indexFoldersProcess idx ms = ⟨true, foldParse idx ms⟩ := by
  induction ms with
  | nil =>
      intro idx _
      rfl
  | cons m rest ih =>
      intro idx h
      have hm : m.isDone = false := h m (List.mem_cons_self m rest)
      have hrest : ∀ x ∈ rest, x.isDone = false :=
        fun x hx => h x (List.mem_cons_of_mem m hx)
      have hstep : wsResponseStep ⟨true, idx⟩ m
          = ⟨true, parseAndStoreCodeData (fileUriOfPath m.filePath) m.codeData idx⟩ := by
        simp [wsResponseStep, hm]
      unfold indexFoldersProcess at ih ⊢
      rw [List.foldl_cons, hstep, ih _ hrest]
      rfl

/-- C7: for a streamed response sequence whose final message alone is
flagged done, the handler stays subscribed through every earlier message,
parses and stores every message including the final one, unsubscribes
exactly on the final message, and afterwards every streamed file has an
entry in the code-data cache. -/
theorem c7_indexFolders_stream (idx : IndexState)
    (ms : List WorkspaceFileIndexedResponse) (mLast : WorkspaceFileIndexedResponse)
    (hpre : ∀ m ∈ ms, m.isDone = false) (hlast : mLast.isDone = true) :
    (indexFoldersProcess idx ms).subscribed = true ∧
      indexFoldersProcess idx (ms ++ [mLast]) = ⟨false, foldParse idx (ms ++ [mLast])⟩ ∧
      ∀ m ∈ ms ++ [mLast],
        (assocGet (indexFoldersProcess idx (ms ++ [mLast])).index.codeDataCache
          (fileUriOfPath m.filePath)).isSome = true := by
  have hml := ws_process_not_done ms idx hpre
  have hfull : indexFoldersProcess idx (ms ++ [mLast])
      = ⟨false, foldParse idx (ms ++ [mLast])⟩ := by
    unfold indexFoldersProcess at hml ⊢
    rw [List.foldl_append, hml, List.foldl_cons]
    have hstep : wsResponseStep ⟨true, foldParse idx ms⟩ mLast
        = ⟨false, parseAndStoreCodeData (fileUriOfPath mLast.filePath) mLast.codeData
            (foldParse idx ms)⟩ := by
      simp [wsResponseStep, hlast]
    rw [hstep]
    unfold foldParse
    rw [List.foldl_append, List.foldl_cons]
    rfl
  refine ⟨by rw [hml], hfull, ?_⟩
  intro m hm
  rw [hfull]
  exact foldParse_mem (ms ++ [mLast]) idx m hm

/-- Taking as many characters as the takeWhile run is long yields the run
itself: the run is a prefix. -/
theorem take_takeWhile_len (p : Char → Bool) (l : Str) :
    l.take (l.takeWhile p).length = l.takeWhile p := by
  induction l with
  | nil => rfl
  | cons c rest ih =>
      by_cases h : p c
      · simp [List.takeWhile_cons, h, ih]
      · simp [List.takeWhile_cons, h]

/-- Every character of a takeWhile run satisfies the predicate. -/
theorem all_takeWhile (p : Char → Bool) (l : Str) :
    (l.takeWhile p).all p = true := by
  induction l with
  | nil => rfl
  | cons c rest ih =>
      by_cases h : p c
      · simp [List.takeWhile_cons, h, ih]
      · simp [List.takeWhile_cons, h]

/-- The character just past a takeWhile run does not satisfy the
predicate. -/
theorem get_after_takeWhile (p : Char → Bool) (l : Str) (c : Char)
    (h : l.get? (l.takeWhile p).length = some c) : p c = false := by
  induction l with
  | nil => simp at h
  | cons x rest ih =>
      by_cases hx : p x
      · rw [List.takeWhile_cons, if_pos hx, List.length_cons] at h
        exact ih h
      · rw [List.takeWhile_cons, if_neg hx] at h
        simp only [List.length_nil, List.get?] at h
        injection h with h₂
        subst h₂
        exact Bool.eq_false_iff.mpr hx

/-- Indexing a dropped list is indexing the original further along. -/
theorem get_drop_eq (l : Str) : ∀ (i j : Nat), (l.drop i).get? j = l.get? (i + j) := by
  induction l with
  | nil => intro i j; cases i <;> rfl
  | cons c rest ih =>
      intro i j
      cases i with
      | zero => simp
      | succ i₂ =>
          have h₁ : i₂ + 1 + j = (i₂ + j) + 1 := by omega
          rw [List.drop_succ_cons, ih i₂ j, h₁]
          rfl

/-- A successful firstMatch yields the takeWhile run of word-or-dot
characters at its index, and that run is nonempty. -/
theorem firstMatch_run (l : Str) :
    ∀ i m, firstMatch l = some (i, m) →
      m = (l.drop i).takeWhile isWordOrDot ∧ m ≠ [] := by
  induction l with
  | nil => intro i m h; simp [firstMatch] at h
  | cons c rest ih =>
      intro i m h
      by_cases hc : isWordOrDot c
      · rw [firstMatch, if_pos hc] at h
        injection h with h₂
        injection h₂ with hi hm
        subst hi
        subst hm
        rw [List.drop_zero, List.takeWhile_cons, if_pos hc]
        exact ⟨rfl, by simp⟩
      · rw [firstMatch, if_neg hc] at h
        cases hfm : firstMatch rest with
        | none => rw [hfm] at h; cases h
        | some pr =>
            obtain ⟨i₂, m₂⟩ := pr
            rw [hfm] at h
            injection h with h₂
            injection h₂ with hi hm
            subst hi
            subst hm
            rw [List.drop_succ_cons]
            exact ih i₂ m₂ hfm

/-- Every character strictly before a successful firstMatch index is not
word-or-dot. -/
theorem firstMatch_before (l : Str) :
    ∀ i m, firstMatch l = some (i, m) →
      ∀ j, j < i → ∀ c, l.get? j = some c → isWordOrDot c = false := by
  induction l with
  | nil => intro i m h; simp [firstMatch] at h
  | cons x rest ih =>
      intro i m h j hj c hg
      by_cases hx : isWordOrDot x
      · rw [firstMatch, if_pos hx] at h
        injection h with h₂
        injection h₂ with hi hm
        omega
      · rw [firstMatch, if_neg hx] at h
        cases hfm : firstMatch rest with
        | none => rw [hfm] at h; cases h
        | some pr =>
            obtain ⟨i₂, m₂⟩ := pr
            rw [hfm] at h
            injection h with h₂
            injection h₂ with hi hm
            subst hi
            cases j with
            | zero =>
                injection hg with hg₂
                subst hg₂
                exact Bool.eq_false_iff.mpr hx
            | succ j₂ =>
                exact ih i₂ m₂ hfm j₂ (by omega) c hg

/-- The scan worker of getIdentifierAtPosition only ever returns a
nonempty identifier that is a maximal run of word-or-dot characters of
the original line, starting at the reported start index. The suffix
argument is the original line with offset characters dropped, and (except
at the line start) the first character of the suffix is not word-or-dot:
both hold at the top-level call and are preserved by the recursion. -/
theorem getIdentAux_maximal (orig : Str) :
    ∀ (fuel : Nat) (suffix : Str) (offset cursor : Nat),
      suffix = orig.drop offset →
      (offset = 0 ∨ ∀ c, suffix.get? 0 = some c → isWordOrDot c = false) →
      ∀ m st, getIdentifierAtPositionAux fuel suffix offset cursor = (m, st) →
        m ≠ [] →
        ∃ s, st = Int.ofNat s ∧ isMaximalRunAt orig s m := by
  intro fuel
  induction fuel with
  | zero =>
      intro suffix offset cursor _ _ m st h hm
      rw [show getIdentifierAtPositionAux 0 suffix offset cursor = ([], -1) from rfl] at h
      injection h with h₁ h₂
      exact absurd h₁.symm hm
  | succ fuel ih =>
      intro suffix offset cursor hsfx hinv m st h hm
      cases hfm : firstMatch suffix with
      | none =>
          simp only [getIdentifierAtPositionAux, hfm] at h
          injection h with h₁ h₂
          exact absurd h₁.symm hm
      | some pr =>
          obtain ⟨idx, mm⟩ := pr
          simp only [getIdentifierAtPositionAux, hfm] at h
          by_cases hidx : idx > cursor
          · rw [if_pos hidx] at h
            injection h with h₁ h₂
            exact absurd h₁.symm hm
          · rw [if_neg hidx] at h
            by_cases hacc : cursor ≤ offset + idx + mm.length
            · rw [if_pos hacc] at h
              injection h with h₁ h₂
              subst h₁
              subst h₂
              obtain ⟨hrun, hne⟩ := firstMatch_run suffix idx mm hfm
              have hu : suffix.drop idx = orig.drop (offset + idx) := by
                rw [hsfx, List.drop_drop, Nat.add_comm]
              refine ⟨offset + idx, rfl, hm, ?_, ?_, ?_, ?_⟩
              · rw [hrun]
                exact all_takeWhile _ _
              · rw [← hu, hrun]
                exact take_takeWhile_len _ _
              · intro c hc
                have hc₂ : (suffix.drop idx).get? mm.length = some c := by
                  rw [hu, get_drop_eq]
                  exact hc
                rw [hrun] at hc₂
                exact get_after_takeWhile _ _ _ hc₂
              · cases idx with
                | zero =>
                    cases hinv with
                    | inl h0 =>
                        left
                        omega
                    | inr hnw =>
                        exfalso
                        rw [List.drop_zero] at hrun
                        cases hsuf : suffix with
                        | nil => rw [hsuf] at hrun; exact hne hrun
                        | cons c₀ r₀ =>
                            rw [hsuf, List.takeWhile_cons] at hrun
                            by_cases hc₀ : isWordOrDot c₀
                            · have := hnw c₀ (by rw [hsuf]; rfl)
                              rw [hc₀] at this
                              cases this
                            · rw [if_neg hc₀] at hrun
                              exact hne hrun
                | succ j =>
                    right
                    intro c hc
                    have hidxe : offset + (j + 1) - 1 = offset + j := by omega
                    rw [hidxe] at hc
                    have hc₂ : suffix.get? j = some c := by
                      rw [hsfx, get_drop_eq]
                      exact hc
                    exact firstMatch_before suffix (j + 1) mm hfm j (by omega) c hc₂
            · rw [if_neg hacc] at h
              apply ih (suffix.drop (idx + mm.length)) (offset + idx + mm.length)
                cursor ?_ ?_ m st h hm
              · rw [hsfx, List.drop_drop]
                congr 1
                omega
              · right
                intro c hc
                obtain ⟨hrun, hne⟩ := firstMatch_run suffix idx mm hfm
                have hc₂ : (suffix.drop idx).get? mm.length = some c := by
                  rw [get_drop_eq]
                  rw [get_drop_eq, Nat.add_zero] at hc
                  exact hc
                rw [hrun] at hc₂
                exact get_after_takeWhile _ _ _ hc₂

/-- C3 counterexample: on the line x..y with the cursor at character 0
the extracted expression is the whole run x..y, which contains
consecutive dots and so does not match the dotted-identifier syntax the
claim states. -/
theorem c3_consecutive_dots_extracted :
    getIdentifierAtPosition (("x..y").toList) 0 = ((("x..y").toList), 0) ∧
      dottedIdentifierSpecShape (("x..y").toList) = false := by
  constructor
  · decide
  · decide

/-- C3 as amended: the expression extracted for navigation is a maximal
run of word characters and dots (the regex class of the source, which may
start with a digit and may contain consecutive dots) covering or
following the scan position; and when the scan accepts no run, the
request returns the empty list. -/
theorem c3_extracted_run_shape :
    (∀ (line : Str) (cursor : Nat),
       (getIdentifierAtPosition line cursor).1 ≠ [] →
       ∃ s, (getIdentifierAtPosition line cursor).2 = Int.ofNat s ∧
         isMaximalRunAt line s (getIdentifierAtPosition line cursor).1) ∧
    (∀ (dm : List (Str × TextDocument)) (reqUri : Str) (pos : Position)
       (rt : RequestType) (oracle : NavOracle) (st : IndexState) (doc : TextDocument),
       assocGet dm reqUri = some doc →
       (getIdentifierAtPosition (getTextOnLine doc pos.line) pos.character).1 = [] →
       handleDefOrRefRequest (some ()) dm reqUri pos rt oracle st = ([], st)) := by
  constructor
  · intro line cursor hne
    exact getIdentAux_maximal line (line.length + 1) line 0 cursor
      (by simp) (Or.inl rfl) _ _ rfl hne
  · intro dm reqUri pos rt oracle st doc hdm hid
    simp [handleDefOrRefRequest, hdm, getTarget, hid]

/-- Witness for C3: on the line ab.c with the cursor at character 1 the
extracted run is maximal, and on a line of two exclamation marks no run
is accepted and the request returns the empty list. -/
theorem c3_extracted_run_shape_witness :
    (∃ s, (getIdentifierAtPosition (("ab.c").toList) 1).2 = Int.ofNat s ∧
       isMaximalRunAt (("ab.c").toList) s (getIdentifierAtPosition (("ab.c").toList) 1).1) ∧
      handleDefOrRefRequest (some ())
          [((("file:///m.m").toList), TextDocument.mk [("!!").toList])]
          (("file:///m.m").toList) ⟨0, 0⟩ RequestType.Definition trivialNavOracle
          ⟨[], []⟩
        = ([], ⟨[], []⟩) :=
  ⟨c3_extracted_run_shape.1 (("ab.c").toList) 1 (by decide),
   c3_extracted_run_shape.2 [((("file:///m.m").toList), TextDocument.mk [("!!").toList])]
     (("file:///m.m").toList) ⟨0, 0⟩ RequestType.Definition trivialNavOracle
     ⟨[], []⟩ (TextDocument.mk [("!!").toList]) (by decide) (by decide)⟩

/-- C8: in the dot-chain prefix case of whichHelper (the full name is
found nowhere by which, the name contains a dot, and only its front end
resolves to a file), a symbol search reporting a line at most one makes
the helper return an empty result rather than the prefix-resolved file. -/
theorem c8_symbol_search_line_le_one (o : FsOracle)
    (pwd₀ containingFile nm fileP : Str) (fi : WhichFileInfo)
    (hclass : startsWithStr "@" ((splitOnChar '/' (fileparts containingFile)).getLastD []) = false)
    (hw : ∀ d, o.whichFrom d nm = [])
    (hpre : ∀ d, o.whichFrom d (List.intercalate (['.']) (splitDots nm).dropLast) = fileP)
    (hfile : fileP ≠ [])
    (hdot : 1 < (splitDots nm).length)
    (hcfi : o.computeFileInfoRes fileP nm = some fi)
    (hline : fi.line ≤ 1) :
    whichHelper o pwd₀ containingFile nm = Except.ok none := by
  unfold whichHelper
  have hclass₂ : startsWithStr "@"
      (((splitOnChar '/' (fileparts containingFile)).getLast?).getD []) = false := by
    rwa [← List.getLastD_eq_getLast?]
  cases hlp : lastPlainIdx (splitOnChar '/' (fileparts containingFile)) with
  | none => simp [hclass₂, hw, hpre, hcfi, hfile, hdot, hline, hlp]
  | some k => simp [hclass₂, hw, hpre, hcfi, hfile, hdot, hline, hlp]

/-- Witness for C8: a concrete oracle in which the name a.b resolves only
through its front end a, whose file reports the symbol at line one. -/
theorem c8_symbol_search_line_le_one_witness :
    whichHelper c8Oracle (("/home").toList) (("/w/ctx.m").toList) (("a.b").toList)
      = Except.ok none :=
  c8_symbol_search_line_le_one c8Oracle (("/home").toList) (("/w/ctx.m").toList)
    (("a.b").toList) (("/z/a.m").toList) ⟨(("/z/a.m").toList), 1, 0, emptyRawCodeData⟩
    (by decide) (fun d => rfl) (fun d => rfl)
    (by decide) (by decide) (by decide) (by decide)

/-- Witness for C7: a stream of two files, only the second flagged done,
ends unsubscribed with both files present in the index. -/
theorem c7_indexFolders_stream_witness :
    (indexFoldersProcess ⟨[], []⟩ [c7MsgA]).subscribed = true ∧
      indexFoldersProcess ⟨[], []⟩ ([c7MsgA] ++ [c7MsgB])
        = ⟨false, foldParse ⟨[], []⟩ ([c7MsgA] ++ [c7MsgB])⟩ ∧
      ∀ m ∈ [c7MsgA] ++ [c7MsgB],
        (assocGet (indexFoldersProcess ⟨[], []⟩ ([c7MsgA] ++ [c7MsgB])).index.codeDataCache
          (fileUriOfPath m.filePath)).isSome = true :=
  c7_indexFolders_stream ⟨[], []⟩ [c7MsgA] c7MsgB (by decide) (by decide)

end MLS
